import Mathlib

/-!
Verification of the `rte` crate of rust-dpdk: a Rust wrapper over a
poll-mode packet-I/O library.  The development shallowly embeds the data
model and the operations of `src/rte/src/mbuf.rs` and
`src/rte/src/ethdev.rs`.  The Rust crate is a thin layer over C shim
functions (`_rte_pktmbuf_*`, `_rte_eth_*_burst`, the `rte_check!` macro)
that live in this repository but outside the `src/` tree; those shims are
modelled from the specification, as stated in their doc comments.  All
machine integers are embedded as `Nat`/`Int` with explicit `% 2^w`
truncation exactly where the Rust code performs a narrowing `as` cast.
-/

namespace RteDpdk

/-- Semantic error kinds of the crate's error module (spec §7). -/
inductive RteError where
  | invalidArgument
  | invalidState
  | unsupported
  | outOfResources
  | deviceError
  | insufficientHeadroom
  | insufficientTailroom
deriving DecidableEq

/-- One mbuf segment: the `data_off`/`data_len`/`buf_len` window of
`struct rte_mbuf` (base address abstracted away; a "pointer" into the
buffer is represented by its offset from `buf_addr`). -/
structure Seg where
  data_off : Nat
  data_len : Nat
  buf_len : Nat
deriving DecidableEq

/-- A packet mbuf: a non-empty chain of segments, `first` being the head
mbuf that the packet-level operations receive. -/
structure MBuf where
  first : Seg
  rest : List Seg
deriving DecidableEq

namespace MBuf

/-- The segments of the chain, head first. -/
def segs (m : MBuf) : List Seg :=
  m.first :: m.rest

/-- Last segment of a non-empty chain given as head plus tail
(the `rte_pktmbuf_lastseg` walk over the `next` links). -/
def lastSegAux : Seg → List Seg → Seg
  | s, [] => s
  | _, s2 :: ss => lastSegAux s2 ss

/-- Last segment of the packet. -/
def lastSeg (m : MBuf) : Seg :=
  lastSegAux m.first m.rest

/-- Apply `f` to the last segment of a head-plus-tail chain, leaving all
other segments unchanged. -/
def updLastAux (f : Seg → Seg) : Seg → List Seg → Seg × List Seg
  | s, [] => (f s, [])
  | s, s2 :: ss =>
    let p := updLastAux f s2 ss
    (s, p.1 :: p.2)

/-- Apply `f` to the last segment of the packet. -/
def updLast (f : Seg → Seg) (m : MBuf) : MBuf :=
  let p := updLastAux f m.first m.rest
  ⟨p.1, p.2⟩

/-- Headroom of the packet: the first segment's data offset
(spec §4.3: "the buffer's current headroom"). -/
def headroom (m : MBuf) : Nat :=
  m.first.data_off

/-- Tailroom of a segment: capacity not covered by the data window. -/
def tailroom (s : Seg) : Nat :=
  s.buf_len - (s.data_off + s.data_len)

/-- Modelled from the spec: the C shim `_rte_pktmbuf_prepend` (declared in
`src/rte/src/mbuf.rs` but defined outside `src/`).  Spec §4.3: fails if
`n` exceeds the buffer's current headroom; on success, moves the data
offset back by `n` and returns a pointer to the new region start; only
affects the first segment.  The returned pointer is modelled as the new
data offset. -/
def rte_pktmbuf_prepend (m : MBuf) (l : Nat) : Except RteError (MBuf × Nat) :=
  if l > m.first.data_off then
    .error .insufficientHeadroom
  else
    .ok (⟨{ m.first with
            data_off := m.first.data_off - l,
            data_len := m.first.data_len + l }, m.rest⟩,
         m.first.data_off - l)

/-- Modelled from the spec: the C shim `_rte_pktmbuf_append` (declared in
`src/rte/src/mbuf.rs` but defined outside `src/`).  Spec §4.3: fails if
`n` exceeds remaining tailroom in the last segment; on success, extends
the data length and returns a pointer to the start of the newly appended
region. -/
def rte_pktmbuf_append (m : MBuf) (l : Nat) : Except RteError (MBuf × Nat) :=
  let last := m.lastSeg
  if l > tailroom last then
    .error .insufficientTailroom
  else
    .ok (updLast (fun s => { s with data_len := s.data_len + l }) m,
         last.data_off + last.data_len)

/-- Modelled from the spec: the C shim `_rte_pktmbuf_adj` (declared in
`src/rte/src/mbuf.rs` but defined outside `src/`).  Spec §4.3: fails if
`n` exceeds the current data length of the first segment; advances the
data offset forward by `n`; returns a pointer to the new data start. -/
def rte_pktmbuf_adj (m : MBuf) (l : Nat) : Except RteError (MBuf × Nat) :=
  if l > m.first.data_len then
    .error .invalidArgument
  else
    .ok (⟨{ m.first with
            data_off := m.first.data_off + l,
            data_len := m.first.data_len - l }, m.rest⟩,
         m.first.data_off + l)

/-- Modelled from the spec: the C shim `_rte_pktmbuf_trim` (declared in
`src/rte/src/mbuf.rs` but defined outside `src/`).  Spec §4.3: fails if
`n` exceeds the data length of the last segment; shrinks the packet from
the back. -/
def rte_pktmbuf_trim (m : MBuf) (l : Nat) : Except RteError MBuf :=
  let last := m.lastSeg
  if l > last.data_len then
    .error .invalidArgument
  else
    .ok (updLast (fun s => { s with data_len := s.data_len - l }) m)

/-- `PktMbuf::prepend` of `src/rte/src/mbuf.rs`: the Rust method takes a
`usize` and narrows it with `len as u16` before the shim call; the cast
is embedded as `% 65536`. -/
def prepend (m : MBuf) (len : Nat) : Except RteError (MBuf × Nat) :=
  rte_pktmbuf_prepend m (len % 65536)

/-- `PktMbuf::append` of `src/rte/src/mbuf.rs` (`len as u16` narrowing). -/
def append (m : MBuf) (len : Nat) : Except RteError (MBuf × Nat) :=
  rte_pktmbuf_append m (len % 65536)

/-- `PktMbuf::consume` of `src/rte/src/mbuf.rs`, wrapping
`_rte_pktmbuf_adj` (`len as u16` narrowing). -/
def consume (m : MBuf) (len : Nat) : Except RteError (MBuf × Nat) :=
  rte_pktmbuf_adj m (len % 65536)

/-- `PktMbuf::trim` of `src/rte/src/mbuf.rs` (`len as u16` narrowing). -/
def trim (m : MBuf) (len : Nat) : Except RteError MBuf :=
  rte_pktmbuf_trim m (len % 65536)

/-- A segment respects its capacity: `data_off + data_len <= buf_len`
(`0 <= data_off` is inherent in the `Nat` embedding). -/
def segOK (s : Seg) : Bool :=
  s.data_off + s.data_len ≤ s.buf_len

/-- The capacity invariant of spec §3, for every segment of the chain. -/
def inv (m : MBuf) : Bool :=
  m.segs.all segOK

end MBuf

/-- One call of the `PktMbuf` mutating interface, with the (untruncated)
`usize` length argument the Rust method receives. -/
inductive MbufOp where
  | prepend (len : Nat)
  | append (len : Nat)
  | consume (len : Nat)
  | trim (len : Nat)
deriving DecidableEq

/-- Run one `PktMbuf` call, keeping only the resulting buffer state. -/
def applyOp (m : MBuf) (op : MbufOp) : Except RteError MBuf :=
  match op with
  | .prepend len => (m.prepend len).map Prod.fst
  | .append len => (m.append len).map Prod.fst
  | .consume len => (m.consume len).map Prod.fst
  | .trim len => m.trim len

/-- Run a finite sequence of `PktMbuf` calls; a call that returns an
error leaves the buffer as it was (the operations check their bound
before mutating any field). -/
def runOps (m : MBuf) (ops : List MbufOp) : MBuf :=
  ops.foldl (fun s op => match applyOp s op with
    | .ok s2 => s2
    | .error _ => s) m

/-- `RefCnt::refcnt_update` of `src/rte/src/mbuf.rs`:
`*refcnt = (*refcnt as isize + value as isize) as u16` — the exact
`isize` sum narrowed to `u16`, i.e. reduced modulo `2^16`; the new value
is both stored and returned. -/
def refcnt_update (r : Nat) (v : Int) : Nat :=
  (((r : Int) + v) % 65536).toNat

/-- Modelled from the spec: the `rte_check!` macro of the crate's error
module (not under `src/`): a zero C return code is success, a nonzero
one is reported through the error channel. -/
def rte_check (ret : Int) : Except Int Unit :=
  if ret = 0 then .ok () else .error ret

/-- Modelled from the spec: the C shim `_rte_pktmbuf_alloc_bulk`
(declared in `src/rte/src/mbuf.rs` but defined outside `src/`).  It
wraps the library's bulk allocator, an all-or-nothing operation on the
pool: it returns `0` after filling all `n` slots of the caller's array,
and a negative errno, allocating nothing, when the pool (modelled by its
number `avail` of available buffers) cannot supply all `n`. -/
def rte_pktmbuf_alloc_bulk (avail n : Nat) : Int :=
  if n ≤ avail then 0 else -2

/-- `PktMbufPool::alloc_bulk` of `src/rte/src/mbuf.rs`: passes the
caller's slice length to the shim and maps the return code through
`rte_check!`; its success type `Result<()>` carries no buffer count. -/
def alloc_bulk (avail n : Nat) : Except Int Unit :=
  rte_check (rte_pktmbuf_alloc_bulk avail n)

/-- The `OffloadFlags` bit constants of `src/rte/src/mbuf.rs` that the
claims need, with the exact shift expressions of the source. -/
def PKT_RX_VLAN_PKT : Nat := 1 <<< 0

def PKT_RX_OVERSIZE : Nat := 0 <<< 0

def PKT_RX_HBUF_OVERFLOW : Nat := 0 <<< 0

def PKT_RX_RECIP_ERR : Nat := 0 <<< 0

def PKT_RX_MAC_ERR : Nat := 0 <<< 0

/-- `bitflags` `insert`: set the given bits in the flags value. -/
def flagsInsert (f g : Nat) : Nat := f ||| g

/-- `bitflags` `contains`: all the given bits are set in the flags
value. -/
def flagsContains (f g : Nat) : Bool := f &&& g == g

namespace Ethdev

/-- The device states of spec §4.1. -/
inductive DevState where
  | unconfigured
  | configured
  | started
  | stopped
  | closed
deriving DecidableEq

/-- Modelled from the spec: the C functions behind
`EthDevice::configure` (`rte_eth_dev_configure`) are not under `src/`.
Spec §4.1: legal from `Unconfigured` or `Stopped`; §3 adds that `close`
returns the device to unconfigured state, and the §8 scenario has
`configure` succeed after `close`, so it is also accepted from `Closed`;
on success the device moves to `Configured`. -/
def configure : DevState → Except RteError DevState
  | .unconfigured => .ok .configured
  | .stopped => .ok .configured
  | .closed => .ok .configured
  | _ => .error .invalidState

/-- Modelled from the spec: `rte_eth_dev_start` is not under `src/`.
Spec §4.1: legal only from `Configured`; moves to `Started`. -/
def start : DevState → Except RteError DevState
  | .configured => .ok .started
  | _ => .error .invalidState

/-- Modelled from the spec: `rte_eth_dev_stop` is not under `src/`.
Spec §4.1: legal from `Started`; moves to `Stopped`. -/
def stop : DevState → Except RteError DevState
  | .started => .ok .stopped
  | _ => .error .invalidState

/-- Modelled from the spec: `rte_eth_dev_close` is not under `src/`.
Spec §4.1: legal from `Stopped`; moves to `Closed`. -/
def close : DevState → Except RteError DevState
  | .stopped => .ok .closed
  | _ => .error .invalidState

/-- `EthLink` of `src/rte/src/ethdev.rs`. -/
structure EthLink where
  speed : Nat
  duplex : Bool
  autoneg : Bool
  up : Bool
deriving DecidableEq

/-- `EthDevice::link` of `src/rte/src/ethdev.rs`: the decode of the
packed 64-bit status word `w` that `rte_eth_link_get` writes. -/
def link (w : Nat) : EthLink :=
  { speed := w &&& 0xFFFFFFFF,
    duplex := w &&& (1 <<< 32) != 0,
    autoneg := w &&& (1 <<< 33) != 0,
    up := w &&& (1 <<< 34) != 0 }

/-- `EthDevice::link_nowait` of `src/rte/src/ethdev.rs`: the decode of
the packed 64-bit status word `w` that `rte_eth_link_get_nowait`
writes. -/
def link_nowait (w : Nat) : EthLink :=
  { speed := w &&& 0xFFFFFFFF,
    duplex := w &&& (1 <<< 32) != 0,
    autoneg := w &&& (1 <<< 33) != 0,
    up := w &&& (1 <<< 34) != 0 }

/-- Modelled from the spec: the C shim `_rte_eth_rx_burst` (declared in
`src/rte/src/ethdev.rs` but defined outside `src/`).  Spec §4.2:
non-blocking; returns as many ready packets as are available up to
`nb_pkts`, writing them to the caller's array; modelled as the minimum
of the queue's ready count `avail` and `nb`. -/
def rte_eth_rx_burst (avail nb : Nat) : Nat :=
  min avail nb

/-- Modelled from the spec: the C shim `_rte_eth_tx_burst` (declared in
`src/rte/src/ethdev.rs` but defined outside `src/`).  Spec §4.2:
attempts to enqueue `nb` buffers in order and returns the count the
hardware actually accepted; the hardware's willingness is modelled by
`acc`, so the result is the minimum of `acc` and `nb`. -/
def rte_eth_tx_burst (acc nb : Nat) : Nat :=
  min acc nb

/-- `EthDevice::rx_burst` of `src/rte/src/ethdev.rs`: passes
`rx_pkts.len() as u16` to the shim (the narrowing cast is `% 65536`);
`len` is the length of the caller's slice. -/
def rx_burst (avail len : Nat) : Nat :=
  rte_eth_rx_burst avail (len % 65536)

/-- `EthDevice::tx_burst` of `src/rte/src/ethdev.rs`: an empty slice is
sent as a null pointer with count 0, otherwise `rx_pkts.len() as u16`
is passed to the shim. -/
def tx_burst (acc len : Nat) : Nat :=
  if len == 0 then
    rte_eth_tx_burst acc 0
  else
    rte_eth_tx_burst acc (len % 65536)

/-- `EthDevice::rx_burst_ex` of `src/rte/src/ethdev.rs`: forwards the
caller-supplied `packets` count to the shim; the slice length `len` is
not consulted. -/
def rx_burst_ex (avail len packets : Nat) : Nat :=
  rte_eth_rx_burst avail packets

/-- `EthDevice::tx_burst_ex` of `src/rte/src/ethdev.rs`: forwards the
caller-supplied `packets` count to the shim; the slice length `len` is
not consulted. -/
def tx_burst_ex (acc len packets : Nat) : Nat :=
  rte_eth_tx_burst acc packets

end Ethdev

/-! ## Helper lemmas -/

lemma shiftLeft_one_eq_pow (k : Nat) : (1 : Nat) <<< k = 2 ^ k := by
  simp [Nat.shiftLeft_eq]

lemma and_two_pow_eq_zero_of_testBit_false {w k : Nat}
    (h : w.testBit k = false) : w &&& 2 ^ k = 0 := by
  apply Nat.eq_of_testBit_eq
  intro i
  simp only [Nat.testBit_and, Nat.zero_testBit, Nat.testBit_two_pow]
  rcases eq_or_ne k i with rfl | hki
  · simp [h]
  · simp [hki]

lemma and_two_pow_bne_zero (w k : Nat) :
    (w &&& 2 ^ k != 0) = w.testBit k := by
  cases hb : w.testBit k with
  | false => simp [and_two_pow_eq_zero_of_testBit_false hb]
  | true =>
    have ht : (w &&& 2 ^ k).testBit k = true := by
      simp [Nat.testBit_and, hb, Nat.testBit_two_pow]
    have hne : w &&& 2 ^ k ≠ 0 := by
      intro h0
      rw [h0] at ht
      simp at ht
    simp [hne]

namespace MBuf

lemma all_lastSegAux {s : Seg} {ss : List Seg}
    (h : (s :: ss).all segOK = true) : segOK (lastSegAux s ss) = true := by
  induction ss generalizing s with
  | nil => simpa [lastSegAux] using h
  | cons s2 ss ih =>
    simp only [List.all_cons, Bool.and_eq_true] at h
    exact ih (by simp [List.all_cons, h.2])

lemma updLastAux_all (f : Seg → Seg) {s : Seg} {ss : List Seg}
    (hall : (s :: ss).all segOK = true)
    (hf : segOK (f (lastSegAux s ss)) = true) :
    ((updLastAux f s ss).1 :: (updLastAux f s ss).2).all segOK = true := by
  induction ss generalizing s with
  | nil => simpa [updLastAux, lastSegAux] using hf
  | cons s2 ss ih =>
    simp only [List.all_cons, Bool.and_eq_true] at hall
    have hall2 : (s2 :: ss).all segOK = true := by
      simp [List.all_cons, hall.2]
    have h2 := ih hall2 (by simpa [lastSegAux] using hf)
    simp only [updLastAux, List.all_cons, Bool.and_eq_true]
    exact ⟨hall.1, by simpa [List.all_cons] using h2⟩

lemma inv_updLast {m : MBuf} {f : Seg → Seg}
    (hm : m.inv = true) (hf : segOK (f m.lastSeg) = true) :
    (updLast f m).inv = true := by
  have hall : (m.first :: m.rest).all segOK = true := by
    simpa [inv, segs] using hm
  have := updLastAux_all f hall (by simpa [lastSeg] using hf)
  simpa [updLast, inv, segs] using this

lemma inv_segOK_lastSeg {m : MBuf} (hm : m.inv = true) :
    segOK m.lastSeg = true :=
  all_lastSegAux (by simpa [inv, segs] using hm)

end MBuf

lemma applyOp_ok_inv {m m2 : MBuf} {op : MbufOp}
    (hm : m.inv = true) (h : applyOp m op = .ok m2) : m2.inv = true := by
  have hfirst : MBuf.segOK m.first = true := by
    simp only [MBuf.inv, MBuf.segs, List.all_cons, Bool.and_eq_true] at hm
    exact hm.1
  have hrest : m.rest.all MBuf.segOK = true := by
    simp only [MBuf.inv, MBuf.segs, List.all_cons, Bool.and_eq_true] at hm
    exact hm.2
  cases op with
  | prepend len =>
    simp only [applyOp, MBuf.prepend, MBuf.rte_pktmbuf_prepend] at h
    split at h
    · simp [Except.map] at h
    · next hc =>
      simp only [Except.map, Except.ok.injEq] at h
      subst h
      simp only [MBuf.segOK, decide_eq_true_eq] at hfirst
      simp only [MBuf.inv, MBuf.segs, List.all_cons, Bool.and_eq_true]
      refine ⟨by simp only [MBuf.segOK, decide_eq_true_eq]; omega, hrest⟩
  | consume len =>
    simp only [applyOp, MBuf.consume, MBuf.rte_pktmbuf_adj] at h
    split at h
    · simp [Except.map] at h
    · next hc =>
      simp only [Except.map, Except.ok.injEq] at h
      subst h
      simp only [MBuf.segOK, decide_eq_true_eq] at hfirst
      simp only [MBuf.inv, MBuf.segs, List.all_cons, Bool.and_eq_true]
      refine ⟨by simp only [MBuf.segOK, decide_eq_true_eq]; omega, hrest⟩
  | append len =>
    simp only [applyOp, MBuf.append, MBuf.rte_pktmbuf_append] at h
    split at h
    · simp [Except.map] at h
    · next hc =>
      simp only [Except.map, Except.ok.injEq] at h
      subst h
      have hlast := MBuf.inv_segOK_lastSeg hm
      simp only [MBuf.segOK, decide_eq_true_eq] at hlast
      simp only [MBuf.tailroom, not_lt] at hc
      apply MBuf.inv_updLast hm
      simp only [MBuf.segOK, decide_eq_true_eq]
      omega
  | trim len =>
    simp only [applyOp, MBuf.trim, MBuf.rte_pktmbuf_trim] at h
    split at h
    · simp at h
    · next hc =>
      simp only [Except.ok.injEq] at h
      subst h
      have hlast := MBuf.inv_segOK_lastSeg hm
      simp only [MBuf.segOK, decide_eq_true_eq] at hlast
      apply MBuf.inv_updLast hm
      simp only [MBuf.segOK, decide_eq_true_eq]
      omega

lemma runOps_inv {m : MBuf} (ops : List MbufOp) (hm : m.inv = true) :
    (runOps m ops).inv = true := by
  induction ops generalizing m with
  | nil => simpa [runOps] using hm
  | cons op ops ih =>
    simp only [runOps, List.foldl_cons]
    cases h : applyOp m op with
    | ok m2 => simpa [runOps, h] using ih (applyOp_ok_inv hm h)
    | error e => simpa [runOps, h] using ih hm

/-! ## Claim theorems -/

/-- A concrete freshly allocated buffer (headroom 128, data length 0,
capacity 2048) used by the concrete instantiations below. -/
def bufW : MBuf := ⟨⟨128, 0, 2048⟩, []⟩

/-- A concrete call sequence used by the concrete instantiations
below. -/
def opsW : List MbufOp := [.prepend 64, .append 100, .consume 10, .trim 5]

/-- C1: for every packet buffer satisfying the capacity invariant and
every finite sequence of `prepend`/`append`/`consume`/`trim` calls, the
invariant `0 <= data_offset` (inherent in the `Nat` embedding) and
`data_offset + data_length <= capacity` holds for every segment after
every call that returns success (the state after any sequence of calls),
and a call that returns an error leaves every field of the buffer
unchanged: extending the run by an erroring call does not change the
resulting buffer. -/
theorem c1_capacity_invariant (m : MBuf) (ops : List MbufOp) (op : MbufOp)
    (hm : m.inv = true) :
    (runOps m ops).inv = true ∧
    runOps m (ops ++ [op]) =
      (match applyOp (runOps m ops) op with
       | .ok m2 => m2
       | .error _ => runOps m ops) := by
  refine ⟨runOps_inv ops hm, ?_⟩
  simp only [runOps, List.foldl_append, List.foldl_cons, List.foldl_nil]

/-- Witness for C1 at the concrete buffer `bufW`, the call sequence
`opsW` and a final `prepend 5000` call that errors (headroom after
`opsW` is 74). -/
theorem c1_capacity_invariant_witness :
    bufW.inv = true ∧
    ((runOps bufW opsW).inv = true ∧
     runOps bufW (opsW ++ [.prepend 5000]) =
       (match applyOp (runOps bufW opsW) (.prepend 5000) with
        | .ok m2 => m2
        | .error _ => runOps bufW opsW)) :=
  ⟨by decide, c1_capacity_invariant bufW opsW (.prepend 5000) (by decide)⟩

/-- C2: on a device in `Started` state, `close` fails with
`InvalidState` (an error result carries no successor state, so the
device stays `Started`); `stop` then `close` both succeed, and a
subsequent `configure` succeeds, moving the device to `Configured`. -/
theorem c2_close_stop_configure :
    Ethdev.close .started = .error .invalidState ∧
    Ethdev.stop .started = .ok .stopped ∧
    Ethdev.close .stopped = .ok .closed ∧
    Ethdev.configure .closed = .ok .configured :=
  ⟨rfl, rfl, rfl, rfl⟩

/-- C3 counterexample: with 0 buffers available and 1 requested,
`alloc_bulk` reports the pool exhaustion through its error channel,
refuting the claim that it never does. -/
theorem c3_exhaustion_is_error : alloc_bulk 0 1 = .error (-2) := rfl

/-- C3 amended: `alloc_bulk` is all-or-nothing — it succeeds, with a
`Result<()>` success value that carries no buffers or count, exactly
when the pool can supply all `n` requested buffers, and otherwise
reports the exhaustion through its error channel; it never returns a
shorter-than-requested result. -/
theorem c3_alloc_bulk_all_or_nothing (avail n : Nat) :
    ((alloc_bulk avail n).isOk = decide (n ≤ avail)) ∧
    alloc_bulk avail n =
      (if n ≤ avail then .ok () else .error (-2)) := by
  unfold alloc_bulk rte_check rte_pktmbuf_alloc_bulk
  by_cases h : n ≤ avail <;> simp [h, Except.isOk, Except.toBool]

/-- C4: `rx_burst` never returns more than the length of the supplied
slice and `tx_burst` never returns more than the number of buffers
passed in, for every queue state (`avail`/`acc`) and slice length. -/
theorem c4_burst_counts_bounded (avail acc len : Nat) :
    Ethdev.rx_burst avail len ≤ len ∧ Ethdev.tx_burst acc len ≤ len := by
  constructor
  · exact le_trans (Nat.min_le_right _ _) (Nat.mod_le _ _)
  · unfold Ethdev.tx_burst Ethdev.rte_eth_tx_burst
    split
    · next h =>
      simp only [beq_iff_eq] at h
      omega
    · exact le_trans (Nat.min_le_right _ _) (Nat.mod_le _ _)

/-- C5: `link` and `link_nowait` decode the packed 64-bit status word
identically: speed is the low 32 bits, duplex is bit 32, autoneg is bit
33 and up is bit 34. -/
theorem c5_link_decode (w : Nat) :
    Ethdev.link w = Ethdev.link_nowait w ∧
    (Ethdev.link w).speed = w % 2 ^ 32 ∧
    (Ethdev.link w).duplex = w.testBit 32 ∧
    (Ethdev.link w).autoneg = w.testBit 33 ∧
    (Ethdev.link w).up = w.testBit 34 := by
  refine ⟨rfl, ?_, ?_, ?_, ?_⟩
  · show w &&& 0xFFFFFFFF = w % 2 ^ 32
    have h : (0xFFFFFFFF : Nat) = 2 ^ 32 - 1 := by norm_num
    rw [h, Nat.and_pow_two_sub_one_eq_mod]
  · show (w &&& (1 <<< 32) != 0) = w.testBit 32
    rw [shiftLeft_one_eq_pow, and_two_pow_bne_zero]
  · show (w &&& (1 <<< 33) != 0) = w.testBit 33
    rw [shiftLeft_one_eq_pow, and_two_pow_bne_zero]
  · show (w &&& (1 <<< 34) != 0) = w.testBit 34
    rw [shiftLeft_one_eq_pow, and_two_pow_bne_zero]

/-- C6 counterexample: on a buffer with headroom 128, `prepend` with
`n = 65536` succeeds (the `len as u16` cast truncates 65536 to 0) even
though `n` exceeds the headroom, refuting the claimed equivalence for
lengths of 2^16 and beyond. -/
theorem c6_truncation_defeats_headroom_check :
    65536 > bufW.headroom ∧ bufW.prepend 65536 = .ok (bufW, 128) :=
  ⟨by decide, rfl⟩

/-- C6 amended: for `n < 2^16` (larger lengths are truncated to 16 bits
by the `len as u16` cast before the underlying call), `prepend` fails
with `InsufficientHeadroom` exactly when `n` exceeds the current
headroom, and on success moves the first segment data offset back by
exactly `n`, extends its data length by `n`, returns a pointer to the
new start of the data region, and leaves all other segments
unchanged. -/
theorem c6_prepend_headroom (m : MBuf) (n : Nat) (h : n < 65536) :
    m.prepend n =
      (if n > m.headroom then
        .error .insufficientHeadroom
      else
        .ok (⟨{ m.first with
                data_off := m.first.data_off - n,
                data_len := m.first.data_len + n }, m.rest⟩,
             m.first.data_off - n)) := by
  unfold MBuf.prepend MBuf.rte_pktmbuf_prepend MBuf.headroom
  rw [Nat.mod_eq_of_lt h]

/-- Witness for C6 amended at the concrete buffer `bufW` and `n = 64`. -/
theorem c6_prepend_headroom_witness :
    64 < 65536 ∧
    bufW.prepend 64 =
      (if 64 > bufW.headroom then
        .error .insufficientHeadroom
      else
        .ok (⟨{ bufW.first with
                data_off := bufW.first.data_off - 64,
                data_len := bufW.first.data_len + 64 }, bufW.rest⟩,
             bufW.first.data_off - 64)) :=
  ⟨by decide, c6_prepend_headroom bufW 64 (by decide)⟩

/-- C7: with an empty slice (zero capacity), `rx_burst` and `tx_burst`
both return 0; their return type carries no error channel, so no
per-call error is possible for empty input. -/
theorem c7_empty_burst (avail acc : Nat) :
    Ethdev.rx_burst avail 0 = 0 ∧ Ethdev.tx_burst acc 0 = 0 := by
  constructor <;>
    simp [Ethdev.rx_burst, Ethdev.tx_burst, Ethdev.rte_eth_rx_burst,
          Ethdev.rte_eth_tx_burst]

/-- C9: `rx_burst_ex` and `tx_burst_ex` forward the caller-supplied
packet count directly to the underlying burst shim without consulting
the slice length (the result is the same for any two slice lengths),
the call always proceeds with no error result, and the slice-length
bound of `rx_burst`/`tx_burst` is not enforced: with 5 packets ready,
a slice of length 0 and a count of 5, both variants return 5 > 0. -/
theorem c9_burst_ex_unchecked :
    (∀ avail acc len1 len2 packets : Nat,
      Ethdev.rx_burst_ex avail len1 packets =
        Ethdev.rte_eth_rx_burst avail packets ∧
      Ethdev.tx_burst_ex acc len1 packets =
        Ethdev.rte_eth_tx_burst acc packets ∧
      Ethdev.rx_burst_ex avail len1 packets =
        Ethdev.rx_burst_ex avail len2 packets ∧
      Ethdev.tx_burst_ex acc len1 packets =
        Ethdev.tx_burst_ex acc len2 packets) ∧
    Ethdev.rx_burst_ex 5 0 5 = 5 ∧ Ethdev.tx_burst_ex 5 0 5 = 5 :=
  ⟨fun _ _ _ _ _ => ⟨rfl, rfl, rfl, rfl⟩, by decide, by decide⟩

/-- C8: `refcnt_update` stores and returns `(r + v) mod 2^16` — the
result is below 2^16 and congruent to `r + v` modulo 2^16 — and in
particular decrementing a refcount of 0 by 1 yields 65535 rather than
being rejected. -/
theorem c8_refcnt_update_wraps (r : Nat) (v : Int) :
    refcnt_update r v < 65536 ∧
    (refcnt_update r v : Int) % 65536 = ((r : Int) + v) % 65536 ∧
    refcnt_update 0 (-1) = 65535 := by
  unfold refcnt_update
  refine ⟨?_, ?_, by decide⟩
  · have h1 := Int.emod_nonneg ((r : Int) + v) (by norm_num : (65536 : Int) ≠ 0)
    have h2 := Int.emod_lt_of_pos ((r : Int) + v) (by norm_num : (0 : Int) < 65536)
    omega
  · have h1 := Int.emod_nonneg ((r : Int) + v) (by norm_num : (65536 : Int) ≠ 0)
    rw [Int.toNat_of_nonneg h1, Int.emod_emod_of_dvd _ dvd_rfl]

/-- C10: the four receive-error offload flags are all the empty bitmask
`0 << 0 = 0`, so inserting any of them into a 64-bit flags value leaves
it unchanged and testing any flags value for containment of them is
always true — they can never be observed as distinct per-packet
metadata bits. -/
theorem c10_zero_error_flags :
    PKT_RX_OVERSIZE = 0 ∧ PKT_RX_HBUF_OVERFLOW = 0 ∧
    PKT_RX_RECIP_ERR = 0 ∧ PKT_RX_MAC_ERR = 0 ∧
    ∀ f : Nat,
      flagsInsert f PKT_RX_OVERSIZE = f ∧
      flagsContains f PKT_RX_OVERSIZE = true ∧
      flagsInsert f PKT_RX_HBUF_OVERFLOW = f ∧
      flagsContains f PKT_RX_HBUF_OVERFLOW = true ∧
      flagsInsert f PKT_RX_RECIP_ERR = f ∧
      flagsContains f PKT_RX_RECIP_ERR = true ∧
      flagsInsert f PKT_RX_MAC_ERR = f ∧
      flagsContains f PKT_RX_MAC_ERR = true := by
  refine ⟨rfl, rfl, rfl, rfl, fun f => ?_⟩
  simp [flagsInsert, flagsContains, PKT_RX_OVERSIZE, PKT_RX_HBUF_OVERFLOW,
        PKT_RX_RECIP_ERR, PKT_RX_MAC_ERR]

end RteDpdk
